import Mathlib

/- Shallow embedding of the Crypto_Backtester repository.

   `backtester/backtesting_engine.py` : the bar-by-bar simulation loop
   (`BacktestingEngine.run_backtest`) becomes an explicit state-passing
   fold (`stepBar` / `runBars` / `run_backtest`).
   `backtester/performance_metrics.py` : the metric functions become
   functions over lists of rationals / trade records.

   Prices, cash and units are modelled as exact rationals (the Python
   code uses float64).  Note that in Lean, division of rationals by zero
   yields zero; places where the Python float semantics differ (divide
   by zero producing inf, one-point sample standard deviation producing
   NaN) are called out in comments at the relevant definitions. -/

/- Trade side, the `Type` column of the trades DataFrame
   (`'BUY'` / `'SELL'` strings in the source). -/
inductive TradeType where
  | buy
  | sell
deriving DecidableEq, Repr

/- One row of the signal-annotated data frame handed to the engine:
   `data_with_signals` has a timestamp index, a `close` column and a
   `final_signal` column (1 = buy, -1 = sell, anything else = hold).
   The indicator columns (`short_ma`, `long_ma`) are carried through
   only for reporting and are omitted here. -/
structure SignalRow where
  timestamp : Nat
  close : ℚ
  final_signal : ℤ
deriving DecidableEq, Repr

/- One row of `self.trades` (columns Timestamp, Type, Price, Units,
   Commission, PnL). -/
structure Trade where
  timestamp : Nat
  type : TradeType
  price : ℚ
  units : ℚ
  commission : ℚ
  pnl : ℚ
deriving DecidableEq, Repr

/- One row of `self.portfolio_history` (columns cash, units_held,
   holdings_value, total_value; the indicator columns are omitted). -/
structure PortfolioRow where
  timestamp : Nat
  cash : ℚ
  units_held : ℚ
  holdings_value : ℚ
  total_value : ℚ
deriving DecidableEq, Repr

/- The engine state threaded through the per-bar loop: current cash,
   current position size, and the trade log accumulated so far. -/
structure EngineState where
  cash : ℚ
  units_held : ℚ
  trades : List Trade
deriving DecidableEq, Repr

/- `self.min_units_threshold = 0.00000001` in `BacktestingEngine.__init__`. -/
def min_units_threshold : ℚ := 1 / 100000000

/- `self.trades[self.trades['Type'] == 'BUY'].iloc[-1:]` : the most
   recent BUY row of the trade log, if any. -/
def lastBuy (trades : List Trade) : Option Trade :=
  (trades.filter (fun t => decide (t.type = TradeType.buy))).getLast?

/- One iteration of the loop `for i in range(1, len(data_with_signals))`
   in `BacktestingEngine.run_backtest`, for a single bar.  The input
   state is the previous bar's (cash, units_held, trades); the output is
   the new state together with the PortfolioHistoryRow written for this
   bar.  Mirrors the source: carry state forward, mark holdings to the
   current close, then the Buy branch (signal == 1 and previously flat),
   the Sell branch (signal == -1 and previously long), otherwise hold;
   finally total_value = cash + holdings_value. -/
def stepBar (commission_rate : ℚ) (s : EngineState) (bar : SignalRow) :
    EngineState × PortfolioRow :=
  let trade_price := bar.close
  if bar.final_signal = 1 ∧ s.units_held = 0 then
    let units_to_buy := s.cash / (trade_price * (1 + commission_rate))
    if min_units_threshold ≤ units_to_buy then
      let cost_of_units := units_to_buy * trade_price
      let commission := cost_of_units * commission_rate
      let total_cost := cost_of_units + commission
      let new_cash := s.cash - total_cost
      let new_units := s.units_held + units_to_buy
      let t : Trade :=
        { timestamp := bar.timestamp, type := TradeType.buy,
          price := trade_price, units := units_to_buy,
          commission := commission, pnl := 0 }
      (⟨new_cash, new_units, s.trades ++ [t]⟩,
       ⟨bar.timestamp, new_cash, new_units, new_units * trade_price,
        new_cash + new_units * trade_price⟩)
    else
      (s, ⟨bar.timestamp, s.cash, s.units_held, s.units_held * trade_price,
            s.cash + s.units_held * trade_price⟩)
  else if bar.final_signal = -1 ∧ 0 < s.units_held then
    let units_to_sell := s.units_held
    let gross_proceeds := units_to_sell * trade_price
    let commission := gross_proceeds * commission_rate
    let net_proceeds := gross_proceeds - commission
    let trade_pnl :=
      match lastBuy s.trades with
      | some b =>
          (units_to_sell * trade_price - commission) -
            (b.units * b.price + b.commission)
      | none => 0
    let new_cash := s.cash + net_proceeds
    let t : Trade :=
      { timestamp := bar.timestamp, type := TradeType.sell,
        price := trade_price, units := units_to_sell,
        commission := commission, pnl := trade_pnl }
    (⟨new_cash, 0, s.trades ++ [t]⟩,
     ⟨bar.timestamp, new_cash, 0, 0, new_cash + 0⟩)
  else
    (s, ⟨bar.timestamp, s.cash, s.units_held, s.units_held * trade_price,
          s.cash + s.units_held * trade_price⟩)

/- The whole loop over the bars after the first one, collecting the
   written PortfolioHistoryRows in order. -/
def runBars (commission_rate : ℚ) :
    EngineState → List SignalRow → EngineState × List PortfolioRow
  | s, [] => (s, [])
  | s, bar :: rest =>
    let p := stepBar commission_rate s bar
    let q := runBars commission_rate p.1 rest
    (q.1, p.2 :: q.2)

/- The engine state after the whole run (initial state for the loop is
   cash = initial_capital, no units, empty trade log; the loop starts at
   the second bar). -/
def finalEngineState (bars : List SignalRow)
    (initial_capital commission_rate : ℚ) : EngineState :=
  match bars with
  | [] => ⟨initial_capital, 0, []⟩
  | _ :: rest => (runBars commission_rate ⟨initial_capital, 0, []⟩ rest).1

/- The subset of the result dict of `run_backtest` that the claims
   refer to.  The metric entries of the dict (`sharpe_ratio`, ...) are
   the standalone functions of `performance_metrics.py` applied to
   `portfolio_history` / `trades` and are modelled by those standalone
   functions below. -/
structure BacktestResult where
  initial_capital : ℚ
  final_capital : ℚ
  total_pnl : ℚ
  num_trades : Nat
  portfolio_history : List PortfolioRow
  trades : List Trade
deriving DecidableEq, Repr

/- `BacktestingEngine.run_backtest`.  On an empty data feed the source
   prints an error message and returns a neutral result dict with
   `final_capital = initial_capital` and empty history/trades.  On a
   non-empty feed the first PortfolioHistoryRow is written before the
   loop (cash = initial capital, units 0, total = initial capital) and
   the loop runs over the remaining bars;
   `final_capital` is the last row's `total_value`,
   `num_trades = len(self.trades[self.trades['Type'] == 'BUY'])`. -/
def run_backtest (bars : List SignalRow)
    (initial_capital commission_rate : ℚ) : BacktestResult :=
  match bars with
  | [] =>
    { initial_capital := initial_capital
      final_capital := initial_capital
      total_pnl := 0
      num_trades := 0
      portfolio_history := []
      trades := [] }
  | b0 :: rest =>
    let row0 : PortfolioRow :=
      ⟨b0.timestamp, initial_capital, 0, 0, initial_capital⟩
    let r := runBars commission_rate ⟨initial_capital, 0, []⟩ rest
    let history := row0 :: r.2
    let final_capital := (history.getLastD row0).total_value
    { initial_capital := initial_capital
      final_capital := final_capital
      total_pnl := final_capital - initial_capital
      num_trades :=
        (r.1.trades.filter (fun t => decide (t.type = TradeType.buy))).length
      portfolio_history := history
      trades := r.1.trades }

/- Mean of a pandas Series (`Series.mean()`): sum over length. -/
def listMean (xs : List ℚ) : ℚ := xs.sum / xs.length

/- Sample variance of a pandas Series with the default `ddof = 1`, i.e.
   `Series.std() ** 2`.  For a one-element series pandas yields NaN
   (division by `n - 1 = 0`); the callers below branch on the length
   before using this value, mirroring the fact that in the source the
   comparison `std == 0` is False for NaN. -/
def sampleVar (xs : List ℚ) : ℚ :=
  ((xs.map (fun x => (x - listMean xs) ^ 2)).sum) / ((xs.length : ℚ) - 1)

/- Tail recursion of `Series.pct_change()`: each entry is
   `v[t] / v[t-1] - 1`.  pandas leaves NaN where both values are 0
   (0/0) and the subsequent `.fillna(0)` turns it into 0, hence the
   explicit branch.  (A zero previous value with a non-zero current
   value would give IEEE inf, which has no rational counterpart; no
   claim below depends on that case.) -/
def pctChangeGo (prev : ℚ) : List ℚ → List ℚ
  | [] => []
  | x :: xs => (if prev = 0 ∧ x = 0 then 0 else x / prev - 1) :: pctChangeGo x xs

/- `portfolio_history['total_value'].pct_change().fillna(0)` : the
   daily-returns series; the first entry is NaN and is filled with 0. -/
def pctChangeFillna : List ℚ → List ℚ
  | [] => []
  | v :: vs => 0 :: pctChangeGo v vs

/- `performance_metrics.calculate_sharpe_ratio`, as a function of the
   daily-returns series.  `none` models a NaN result.  The source
   returns 0.0 for an empty history, then returns 0.0 when
   `daily_returns.std() == 0`; for a one-point series the sample
   standard deviation is NaN, the comparison with 0 is False, and the
   final expression `(mean - rf/factor) / std * sqrt(factor)` is NaN.
   For two or more points `std == 0` iff the sample variance is 0. -/
noncomputable def calculate_sharpe (daily_returns : List ℚ)
    (risk_free_rate annualization_factor : ℚ) : Option ℝ :=
  if daily_returns = [] then some 0
  else if daily_returns.length < 2 then none
  else if sampleVar daily_returns = 0 then some 0
  else some ((((listMean daily_returns : ℚ) : ℝ) -
        ((risk_free_rate : ℚ) : ℝ) / ((annualization_factor : ℚ) : ℝ)) /
      Real.sqrt ((sampleVar daily_returns : ℚ) : ℝ) *
      Real.sqrt ((annualization_factor : ℚ) : ℝ))

/- `performance_metrics.calculate_sortino_ratio`, same conventions as
   `calculate_sharpe`.  The denominator is the sample standard
   deviation of the negative returns only; the source returns 0.0 when
   there are no negative returns or their std is 0 and NaN when there
   is exactly one negative return (std of one point is NaN). -/
noncomputable def calculate_sortino (daily_returns : List ℚ)
    (risk_free_rate annualization_factor : ℚ) : Option ℝ :=
  if daily_returns = [] then some 0
  else
    let downside := daily_returns.filter (fun x => decide (x < 0))
    if downside = [] then some 0
    else if downside.length < 2 then none
    else if sampleVar downside = 0 then some 0
    else some ((((listMean daily_returns : ℚ) : ℝ) -
          ((risk_free_rate : ℚ) : ℝ) / ((annualization_factor : ℚ) : ℝ)) /
        Real.sqrt ((sampleVar downside : ℚ) : ℝ) *
        Real.sqrt ((annualization_factor : ℚ) : ℝ))

/- `performance_metrics.calculate_profit_factor` over the trade log.
   Gross profit is the sum of the positive PnL entries, gross loss the
   sum of absolute values of the negative ones; on zero gross loss the
   source returns `1.0 if gross_profits > 0 else 0.0`. -/
def calculate_profit_factor (trades : List Trade) : ℚ :=
  if trades = [] then 0
  else
    let gross_profits := ((trades.filter (fun t => decide (0 < t.pnl))).map Trade.pnl).sum
    let gross_losses :=
      ((trades.filter (fun t => decide (t.pnl < 0))).map (fun t => |t.pnl|)).sum
    if gross_losses = 0 then (if 0 < gross_profits then 1 else 0)
    else gross_profits / gross_losses

/- Modelled from the spec: the profit factor as §4.2 of the spec words
   it, with `none` standing for the "undefined/infinite" sentinel that
   the spec prescribes when gross loss is zero but gross profit is
   positive.  Used only to compare the spec's policy against
   `calculate_profit_factor`. -/
def profitFactorSpec (trades : List Trade) : Option ℚ :=
  let gross_profits := ((trades.filter (fun t => decide (0 < t.pnl))).map Trade.pnl).sum
  let gross_losses :=
    ((trades.filter (fun t => decide (t.pnl < 0))).map (fun t => |t.pnl|)).sum
  if gross_losses = 0 then (if gross_profits = 0 then some 0 else none)
  else some (gross_profits / gross_losses)

/- Gross profit as the claim words it: the sum of the positive trade
   PnL entries, written pointwise. -/
def grossProfitOf (trades : List Trade) : ℚ :=
  (trades.map (fun t => max t.pnl 0)).sum

/- Absolute gross loss as the claim words it. -/
def grossLossOf (trades : List Trade) : ℚ :=
  (trades.map (fun t => max (-t.pnl) 0)).sum

/- Number of trades of a given side in a trade log, as the source
   counts them: `len(trades[trades['Type'] == tt])`. -/
def countTrades (tt : TradeType) (ts : List Trade) : Nat :=
  (ts.filter (fun t => decide (t.type = tt))).length

/- Same count on a bare list of trade sides. -/
def countT (tt : TradeType) (l : List TradeType) : Nat :=
  (l.filter (fun x => decide (x = tt))).length

/- Replay of a sequence of trade sides through the all-in/all-out
   position automaton; the Bool is `true` when flat.  `endFlat f l`
   returns the final flat/long flag when, starting from flag `f`, every
   buy happens flat and every sell happens long (i.e. the sides
   strictly alternate as the engine produces them); `none` otherwise. -/
def endFlat : Bool → List TradeType → Option Bool
  | f, [] => some f
  | true, TradeType.buy :: l => endFlat false l
  | false, TradeType.sell :: l => endFlat true l
  | _, _ => none

/- The PnL identity of the claim, over a whole trade log: every Sell
   entry carries pnl = (its units*price - its commission) minus (the
   most recent preceding Buy entry's units*price + that Buy's
   commission). -/
def SellPnlOk (ts : List Trade) : Prop :=
  ∀ pre t post, ts = pre ++ t :: post → t.type = TradeType.sell →
    ∃ p1 b p2, pre = p1 ++ b :: p2 ∧ b.type = TradeType.buy ∧
      (∀ x ∈ p2, x.type ≠ TradeType.buy) ∧
      t.pnl = (t.units * t.price - t.commission) - (b.units * b.price + b.commission)

/- The loop invariant of the engine state: the trade log alternates
   correctly (flat at the end iff the position is zero), the position
   is never negative, Buy trades carry pnl 0, and Sell trades satisfy
   the PnL identity. -/
structure EngineInv (s : EngineState) : Prop where
  shape : endFlat true (s.trades.map Trade.type) = some (decide (s.units_held = 0))
  pos : s.units_held = 0 ∨ 0 < s.units_held
  buy_pnl : ∀ t ∈ s.trades, t.type = TradeType.buy → t.pnl = 0
  sell_ok : SellPnlOk s.trades

/- Length of the rows produced by the loop: one row per processed bar. -/
theorem runBars_length (commission_rate : ℚ) (s : EngineState)
    (bs : List SignalRow) : ((runBars commission_rate s bs).2).length = bs.length := by
  induction bs generalizing s with
  | nil => rfl
  | cons bar rest ih => simp [runBars, ih]

/-- C1 counterexample: running the engine on 3 bars with closes
[100, 110, 121], signals [Buy, Hold, Hold], capital 1000 and commission
rate 0 records no trade at all (the loop starts at the second bar, so
the Buy signal of the first bar is never evaluated) and ends with
total_value 1000, contradicting the claimed single Buy, units_held 10
and total_value 1210. -/
theorem C1_counterexample :
    (run_backtest [⟨0, 100, 1⟩, ⟨1, 110, 0⟩, ⟨2, 121, 0⟩] 1000 0).trades = [] ∧
    (run_backtest [⟨0, 100, 1⟩, ⟨1, 110, 0⟩, ⟨2, 121, 0⟩] 1000 0).final_capital = 1000 := by
  norm_num [run_backtest, runBars, stepBar, min_units_threshold]

/-- C1 (amended): when the Buy signal sits on a bar the engine actually
processes — a warm-up first bar with close 100 and Hold, then closes
[100, 110, 121] with signals [Buy, Hold, Hold], capital 1000, commission
0 — the run holds exactly 10 units after the Buy bar, ends with
total_value 1210, and records exactly one trade, the Buy. -/
theorem C1_theorem :
    (run_backtest [⟨0, 100, 0⟩, ⟨1, 100, 1⟩, ⟨2, 110, 0⟩, ⟨3, 121, 0⟩] 1000 0).portfolio_history =
      [⟨0, 1000, 0, 0, 1000⟩, ⟨1, 0, 10, 1000, 1000⟩,
       ⟨2, 0, 10, 1100, 1100⟩, ⟨3, 0, 10, 1210, 1210⟩] ∧
    (run_backtest [⟨0, 100, 0⟩, ⟨1, 100, 1⟩, ⟨2, 110, 0⟩, ⟨3, 121, 0⟩] 1000 0).final_capital = 1210 ∧
    (run_backtest [⟨0, 100, 0⟩, ⟨1, 100, 1⟩, ⟨2, 110, 0⟩, ⟨3, 121, 0⟩] 1000 0).trades =
      [⟨1, TradeType.buy, 100, 10, 0, 0⟩] := by
  norm_num [run_backtest, runBars, stepBar, min_units_threshold]

/-- C2 counterexample: no configuration is rejected.  With initial
capital 0 (≤ 0) and commission rate 5 (outside [0,1)) on a non-empty
feed the engine still simulates every bar (two history rows are
produced, no error), and on an empty feed it returns the neutral
substitute result with final_capital = initial_capital rather than
surfacing an error to the caller. -/
theorem C2_counterexample :
    (run_backtest [⟨0, 100, 1⟩, ⟨1, 110, 1⟩] 0 5).portfolio_history.length = 2 ∧
    run_backtest [] 1000 5 = ⟨1000, 1000, 0, 0, [], []⟩ := by
  constructor
  · norm_num [run_backtest, runBars, stepBar, min_units_threshold]
  · rfl

/-- C2 (amended): the engine performs no configuration validation at
all.  For every input it simulates all bars, producing one
PortfolioHistoryRow per input bar whatever the capital or commission
rate; for the empty input it prints a message and returns the neutral
result dict (final_capital = initial_capital, zero trades, empty
history) instead of failing. -/
theorem C2_theorem (bars : List SignalRow) (initial_capital commission_rate : ℚ) :
    (run_backtest bars initial_capital commission_rate).portfolio_history.length =
      bars.length ∧
    run_backtest [] initial_capital commission_rate =
      ⟨initial_capital, initial_capital, 0, 0, [], []⟩ := by
  constructor
  · cases bars with
    | nil => rfl
    | cons b rest =>
      simp [run_backtest, runBars_length]
  · simp [run_backtest]

/-- C3 (supporting evaluation for the code_bug verdict): in the exact
rational model the three numeric edge cases are skipped with state
unchanged and no trade — zero available cash on a Buy signal, a
dust-sized buy (capital 10^-9 at price 100 gives 10^-11 units, below
min_units_threshold), and a zero close price on a Buy signal.  Beware
that for the zero-price case this relies on rational division by zero
being 0 in Lean, so that units_to_buy = cash/0 = 0 falls below the
threshold; under the float64 semantics of the actual source,
cash / 0.0 is inf, the threshold test passes, and a BUY with infinite
units and NaN cash is recorded — the code bug reported for this claim. -/
theorem C3_theorem :
    ((run_backtest [⟨0, 100, 0⟩, ⟨1, 100, 1⟩] 0 (1/1000)).trades = [] ∧
      (run_backtest [⟨0, 100, 0⟩, ⟨1, 100, 1⟩] 0 (1/1000)).portfolio_history =
        [⟨0, 0, 0, 0, 0⟩, ⟨1, 0, 0, 0, 0⟩]) ∧
    ((run_backtest [⟨0, 100, 0⟩, ⟨1, 100, 1⟩] (1/1000000000) 0).trades = [] ∧
      (run_backtest [⟨0, 100, 0⟩, ⟨1, 100, 1⟩] (1/1000000000) 0).portfolio_history =
        [⟨0, 1/1000000000, 0, 0, 1/1000000000⟩, ⟨1, 1/1000000000, 0, 0, 1/1000000000⟩]) ∧
    ((run_backtest [⟨0, 100, 0⟩, ⟨1, 0, 1⟩] 1000 (1/1000)).trades = [] ∧
      (run_backtest [⟨0, 100, 0⟩, ⟨1, 0, 1⟩] 1000 (1/1000)).portfolio_history =
        [⟨0, 1000, 0, 0, 1000⟩, ⟨1, 1000, 0, 0, 1000⟩]) := by
  norm_num [run_backtest, runBars, stepBar, min_units_threshold]

/-- C10: in exact rational arithmetic an executed Buy commits all
available cash — whenever the Buy branch fires (Buy signal, flat
position, units_to_buy at least the dust threshold), the bar's
PortfolioHistoryRow and the new engine state both have cash exactly 0,
and one Buy trade is appended. -/
theorem C10_theorem (commission_rate : ℚ) (s : EngineState) (bar : SignalRow)
    (h1 : bar.final_signal = 1) (h2 : s.units_held = 0)
    (h3 : min_units_threshold ≤ s.cash / (bar.close * (1 + commission_rate))) :
    (stepBar commission_rate s bar).2.cash = 0 ∧
    (stepBar commission_rate s bar).1.cash = 0 ∧
    (stepBar commission_rate s bar).1.trades.length = s.trades.length + 1 := by
  have hd : bar.close * (1 + commission_rate) ≠ 0 := by
    intro h0
    rw [h0, div_zero] at h3
    norm_num [min_units_threshold] at h3
  have hcash : s.cash -
      (s.cash / (bar.close * (1 + commission_rate)) * bar.close +
        s.cash / (bar.close * (1 + commission_rate)) * bar.close * commission_rate) = 0 := by
    have : s.cash / (bar.close * (1 + commission_rate)) * bar.close +
        s.cash / (bar.close * (1 + commission_rate)) * bar.close * commission_rate =
        s.cash / (bar.close * (1 + commission_rate)) * (bar.close * (1 + commission_rate)) := by
      ring
    rw [this, div_mul_cancel₀ _ hd]
    ring
  simp only [stepBar, h1, h2]
  rw [if_pos (by norm_num)]
  rw [if_pos h3]
  refine ⟨?_, ?_, ?_⟩
  · simpa using hcash
  · simpa using hcash
  · simp

/-- C10 witness: a concrete executed Buy — capital 1000, price 100,
commission 0 — leaves cash exactly 0 and appends one trade. -/
theorem C10_witness :
    (stepBar 0 ⟨1000, 0, []⟩ ⟨5, 100, 1⟩).2.cash = 0 ∧
    (stepBar 0 ⟨1000, 0, []⟩ ⟨5, 100, 1⟩).1.cash = 0 ∧
    (stepBar 0 ⟨1000, 0, []⟩ ⟨5, 100, 1⟩).1.trades.length =
      (List.length ([] : List Trade)) + 1 :=
  C10_theorem 0 ⟨1000, 0, []⟩ ⟨5, 100, 1⟩ rfl rfl (by norm_num [min_units_threshold])

theorem countT_cons (tt x : TradeType) (l : List TradeType) :
    countT tt (x :: l) = countT tt l + (if x = tt then 1 else 0) := by
  by_cases hx : x = tt <;> simp [countT, List.filter_cons, hx]

theorem countTrades_eq_countT (tt : TradeType) (ts : List Trade) :
    countTrades tt ts = countT tt (ts.map Trade.type) := by
  induction ts with
  | nil => rfl
  | cons t l ih =>
    by_cases ht : t.type = tt <;>
      simp [countTrades, countT, List.filter_cons, ht] at ih ⊢ <;> omega

theorem endFlat_append (l₁ : List TradeType) : ∀ (l₂ : List TradeType) (f : Bool),
    endFlat f (l₁ ++ l₂) = (endFlat f l₁).bind (fun m => endFlat m l₂) := by
  induction l₁ with
  | nil => intro l₂ f; cases f <;> rfl
  | cons x l ih =>
    intro l₂ f
    cases f <;> cases x <;> simp [endFlat, ih]

theorem endFlat_count (l : List TradeType) : ∀ (f b : Bool), endFlat f l = some b →
    countT TradeType.buy l + (if f then 0 else 1) =
      countT TradeType.sell l + (if b then 0 else 1) := by
  induction l with
  | nil =>
    intro f b h
    simp [endFlat] at h
    simp [countT, h]
  | cons x l ih =>
    intro f b h
    cases f <;> cases x <;> simp only [endFlat] at h
    · -- f = false, x = buy : impossible
      exact absurd h (by simp)
    · -- f = false, x = sell
      have := ih true b h
      simp only [countT_cons]
      simp at this ⊢
      omega
    · -- f = true, x = buy
      have := ih false b h
      simp only [countT_cons]
      simp at this ⊢
      omega
    · -- f = true, x = sell : impossible
      exact absurd h (by simp)

theorem endFlat_false_last (l : List TradeType) : ∀ (f : Bool),
    endFlat f l = some false →
    (f = false ∧ l = []) ∨ ∃ l', l = l' ++ [TradeType.buy] := by
  induction l with
  | nil =>
    intro f h
    simp [endFlat] at h
    exact Or.inl ⟨h, rfl⟩
  | cons x l ih =>
    intro f h
    right
    cases f <;> cases x <;> simp only [endFlat] at h
    · exact absurd h (by simp)
    · rcases ih true h with ⟨hf, _⟩ | ⟨l', hl⟩
      · exact absurd hf (by simp)
      · exact ⟨TradeType.sell :: l', by simp [hl]⟩
    · rcases ih false h with ⟨_, hl⟩ | ⟨l', hl⟩
      · exact ⟨[], by simp [hl]⟩
      · exact ⟨TradeType.buy :: l', by simp [hl]⟩
    · exact absurd h (by simp)

theorem filter_getLast_decomp (p : Trade → Bool) (l : List Trade) : ∀ (b : Trade),
    (l.filter p).getLast? = some b →
    ∃ l₁ l₂, l = l₁ ++ b :: l₂ ∧ p b = true ∧ ∀ x ∈ l₂, p x = false := by
  induction l with
  | nil => intro b h; simp at h
  | cons a l ih =>
    intro b h
    by_cases ha : p a
    · rw [List.filter_cons_of_pos ha] at h
      rcases hfl : l.filter p with _ | ⟨c, cs⟩
      · rw [hfl] at h
        simp at h
        refine ⟨[], l, by simp [h], h ▸ ha, ?_⟩
        intro x hx
        have := List.filter_eq_nil_iff.mp hfl x hx
        simpa using this
      · rw [hfl, List.getLast?_cons_cons] at h
        rcases ih b (by rw [hfl]; exact h) with ⟨l₁, l₂, hdec, hpb, hl₂⟩
        exact ⟨a :: l₁, l₂, by simp [hdec], hpb, hl₂⟩
    · rw [List.filter_cons_of_neg ha] at h
      rcases ih b h with ⟨l₁, l₂, hdec, hpb, hl₂⟩
      exact ⟨a :: l₁, l₂, by simp [hdec], hpb, hl₂⟩

theorem lastBuy_isSome_of_long (ts : List Trade)
    (h : endFlat true (ts.map Trade.type) = some false) :
    ∃ b, lastBuy ts = some b := by
  rcases endFlat_false_last _ _ h with ⟨hf, _⟩ | ⟨l', hl⟩
  · exact absurd hf (by simp)
  · have hmem : TradeType.buy ∈ ts.map Trade.type := by rw [hl]; simp
    rcases List.mem_map.mp hmem with ⟨t, ht, htype⟩
    have hmf : t ∈ ts.filter (fun t => decide (t.type = TradeType.buy)) :=
      List.mem_filter.mpr ⟨ht, by simp [htype]⟩
    have hne : ts.filter (fun t => decide (t.type = TradeType.buy)) ≠ [] :=
      List.ne_nil_of_mem hmf
    rcases Option.isSome_iff_exists.mp (List.getLast?_isSome.mpr hne) with ⟨b, hb⟩
    exact ⟨b, hb⟩

theorem append_singleton_eq (l pre post : List Trade) (a x : Trade)
    (h : l ++ [a] = pre ++ x :: post) :
    (pre = l ∧ x = a ∧ post = []) ∨
      ∃ post', post = post' ++ [a] ∧ l = pre ++ x :: post' := by
  rcases List.append_eq_append_iff.mp h with ⟨a', ha1, ha2⟩ | ⟨c', hc1, hc2⟩
  · cases a' with
    | nil =>
      simp at ha1 ha2
      exact Or.inl ⟨ha1, ha2.1.symm, ha2.2⟩
    | cons y ys =>
      exfalso
      have := congrArg List.length ha2
      simp at this
  · cases c' with
    | nil =>
      simp at hc1 hc2
      exact Or.inl ⟨hc1.symm, hc2.1, hc2.2⟩
    | cons y ys =>
      rcases List.cons.injEq x post y (ys ++ [a]) ▸ hc2 with ⟨hxy, hpost⟩
      exact Or.inr ⟨ys, by simp [hpost], by simp [hc1, hxy]⟩

theorem SellPnlOk.append_non_sell {ts : List Trade} (h : SellPnlOk ts)
    (t : Trade) (ht : t.type ≠ TradeType.sell) : SellPnlOk (ts ++ [t]) := by
  intro pre t' post heq ht'
  rcases append_singleton_eq ts pre post t t' heq with ⟨hpre, hxt, hpost⟩ | ⟨post', hpost, hts⟩
  · exact absurd (hxt ▸ ht') ht
  · exact h pre t' post' hts ht'

theorem EngineInv.append_buy {s : EngineState} (h : EngineInv s)
    (hu : s.units_held = 0) {c u' : ℚ} (hu' : 0 < u') {t : Trade}
    (htb : t.type = TradeType.buy) (htp : t.pnl = 0) :
    EngineInv ⟨c, u', s.trades ++ [t]⟩ := by
  have hshape : endFlat true (s.trades.map Trade.type) = some true := by
    have := h.shape
    rw [hu] at this
    simpa using this
  refine ⟨?_, Or.inr hu', ?_, ?_⟩
  · show endFlat true ((s.trades ++ [t]).map Trade.type) = some (decide (u' = 0))
    rw [List.map_append, endFlat_append, hshape]
    simp [htb, endFlat, decide_eq_false (ne_of_gt hu')]
  · intro x hx hxb
    rcases List.mem_append.mp hx with hx | hx
    · exact h.buy_pnl x hx hxb
    · simp at hx
      rw [hx]
      exact htp
  · exact h.sell_ok.append_non_sell t (by rw [htb]; simp)

theorem EngineInv.append_sell {s : EngineState} (h : EngineInv s)
    (hu : 0 < s.units_held) {c : ℚ} {t : Trade}
    (hts : t.type = TradeType.sell)
    (hpnl : ∀ b, lastBuy s.trades = some b →
      t.pnl = (t.units * t.price - t.commission) - (b.units * b.price + b.commission)) :
    EngineInv ⟨c, 0, s.trades ++ [t]⟩ := by
  have hshape : endFlat true (s.trades.map Trade.type) = some false := by
    have := h.shape
    rw [decide_eq_false (ne_of_gt hu)] at this
    exact this
  rcases lastBuy_isSome_of_long s.trades hshape with ⟨b, hb⟩
  rcases filter_getLast_decomp _ s.trades b hb with ⟨l₁, l₂, hdec, hpb, hl₂⟩
  refine ⟨?_, Or.inl rfl, ?_, ?_⟩
  · show endFlat true ((s.trades ++ [t]).map Trade.type) = some (decide ((0:ℚ) = 0))
    rw [List.map_append, endFlat_append, hshape]
    simp [hts, endFlat]
  · intro x hx hxb
    rcases List.mem_append.mp hx with hx | hx
    · exact h.buy_pnl x hx hxb
    · simp at hx
      rw [hx] at hxb
      rw [hts] at hxb
      exact absurd hxb (by simp)
  · intro pre t' post heq ht'
    rcases append_singleton_eq s.trades pre post t t' heq with
      ⟨hpre, hxt, hpost⟩ | ⟨post', hpost, hts'⟩
    · refine ⟨l₁, b, l₂, hpre ▸ hdec, by simpa using hpb, ?_, ?_⟩
      · intro x hx
        have := hl₂ x hx
        simpa using this
      · rw [hxt]
        exact hpnl b hb
    · exact h.sell_ok pre t' post' hts' ht'

theorem stepBar_inv (commission_rate : ℚ) (s : EngineState) (bar : SignalRow)
    (h : EngineInv s) : EngineInv (stepBar commission_rate s bar).1 := by
  unfold stepBar
  dsimp only
  split_ifs with hbuy hthr hsell
  · have hpos : (0:ℚ) < s.cash / (bar.close * (1 + commission_rate)) :=
      lt_of_lt_of_le (by norm_num [min_units_threshold]) hthr
    exact h.append_buy hbuy.2 (by rw [hbuy.2, zero_add]; exact hpos) rfl rfl
  · exact h
  · refine h.append_sell hsell.2 rfl ?_
    intro b hb
    simp [hb]
  · exact h

theorem runBars_inv (commission_rate : ℚ) : ∀ (bs : List SignalRow) (s : EngineState),
    EngineInv s → EngineInv (runBars commission_rate s bs).1 := by
  intro bs
  induction bs with
  | nil => intro s h; exact h
  | cons bar rest ih =>
    intro s h
    exact ih _ (stepBar_inv commission_rate s bar h)

theorem init_inv (c : ℚ) : EngineInv ⟨c, 0, []⟩ := by
  refine ⟨by simp [endFlat], Or.inl rfl, by simp, ?_⟩
  intro pre t post heq _
  exact absurd heq (by simp)

theorem finalEngineState_inv (bars : List SignalRow) (initial_capital commission_rate : ℚ) :
    EngineInv (finalEngineState bars initial_capital commission_rate) := by
  cases bars with
  | nil => exact init_inv initial_capital
  | cons b rest => exact runBars_inv commission_rate rest _ (init_inv initial_capital)

theorem run_backtest_trades (bars : List SignalRow) (initial_capital commission_rate : ℚ) :
    (run_backtest bars initial_capital commission_rate).trades =
      (finalEngineState bars initial_capital commission_rate).trades := by
  cases bars <;> rfl

theorem stepBar_row (commission_rate : ℚ) (s : EngineState) (bar : SignalRow) :
    (stepBar commission_rate s bar).2.total_value =
      (stepBar commission_rate s bar).2.cash +
        (stepBar commission_rate s bar).2.units_held * bar.close := by
  unfold stepBar
  dsimp only
  split_ifs <;> simp

theorem runBars_conservation (commission_rate : ℚ) : ∀ (bs : List SignalRow) (s : EngineState),
    List.Forall₂ (fun (row : PortfolioRow) (bar : SignalRow) =>
      row.total_value = row.cash + row.units_held * bar.close)
      (runBars commission_rate s bs).2 bs := by
  intro bs
  induction bs with
  | nil => intro s; constructor
  | cons bar rest ih =>
    intro s
    exact List.Forall₂.cons (stepBar_row commission_rate s bar) (ih _)

/-- C4: conservation — at every row of the PortfolioHistory produced by
a run, total_value equals cash plus units_held times that bar's close
price, exactly (rows and bars are matched positionally). -/
theorem C4_theorem (bars : List SignalRow) (initial_capital commission_rate : ℚ) :
    List.Forall₂ (fun (row : PortfolioRow) (bar : SignalRow) =>
      row.total_value = row.cash + row.units_held * bar.close)
      (run_backtest bars initial_capital commission_rate).portfolio_history bars := by
  cases bars with
  | nil => constructor
  | cons b0 rest =>
    refine List.Forall₂.cons ?_ ?_
    · show (initial_capital : ℚ) = initial_capital + 0 * b0.close
      ring
    · exact runBars_conservation commission_rate rest ⟨initial_capital, 0, []⟩

theorem endFlat_get (l : List TradeType) : ∀ (f b : Bool), endFlat f l = some b →
    ∀ i (h : i < l.length),
      l[i] = (if (i % 2 = 0) ↔ (f = true) then TradeType.buy else TradeType.sell) := by
  induction l with
  | nil => intro f b _ i h; simp at h
  | cons x ts ih =>
    intro f b hef i h
    cases f <;> cases x <;> simp only [endFlat] at hef
    · exact absurd hef (by simp)
    · cases i with
      | zero => simp
      | succ j =>
        have hj : j < ts.length := by simpa using h
        have hg := ih true b hef j hj
        simp only [List.getElem_cons_succ]
        rw [hg]
        by_cases hp : j % 2 = 0
        · have hp1 : ¬ ((j+1) % 2 = 0) := by omega
          simp [hp, hp1]
        · have hp1 : (j+1) % 2 = 0 := by omega
          simp [hp, hp1]
    · cases i with
      | zero => simp
      | succ j =>
        have hj : j < ts.length := by simpa using h
        have hg := ih false b hef j hj
        simp only [List.getElem_cons_succ]
        rw [hg]
        by_cases hp : j % 2 = 0
        · have hp1 : ¬ ((j+1) % 2 = 0) := by omega
          simp [hp, hp1]
        · have hp1 : (j+1) % 2 = 0 := by omega
          simp [hp, hp1]
    · exact absurd hef (by simp)

/-- C5: PnL identity — in every run, every Buy trade is recorded with
pnl = 0, and every Sell trade's pnl equals (its units times price minus
its commission) minus (the most recent preceding Buy trade's units
times price plus that Buy's commission). -/
theorem C5_theorem (bars : List SignalRow) (initial_capital commission_rate : ℚ) :
    (∀ t ∈ (run_backtest bars initial_capital commission_rate).trades,
      t.type = TradeType.buy → t.pnl = 0) ∧
    SellPnlOk (run_backtest bars initial_capital commission_rate).trades := by
  have hinv := finalEngineState_inv bars initial_capital commission_rate
  rw [run_backtest_trades bars initial_capital commission_rate]
  exact ⟨hinv.buy_pnl, hinv.sell_ok⟩

/-- C6: trade pairing — in every run, every initial segment of the
trade log has no more Sells than Buys; at the end the counts are equal
iff the run does not end with an open position; and the trades strictly
alternate, Buy at every even index and Sell at every odd index. -/
theorem C6_theorem (bars : List SignalRow) (initial_capital commission_rate : ℚ) :
    (∀ pre suf, (run_backtest bars initial_capital commission_rate).trades = pre ++ suf →
      countTrades TradeType.sell pre ≤ countTrades TradeType.buy pre) ∧
    (countTrades TradeType.sell (run_backtest bars initial_capital commission_rate).trades =
        countTrades TradeType.buy (run_backtest bars initial_capital commission_rate).trades ↔
      ¬ 0 < (finalEngineState bars initial_capital commission_rate).units_held) ∧
    (∀ i (h : i < (run_backtest bars initial_capital commission_rate).trades.length),
      ((run_backtest bars initial_capital commission_rate).trades[i]).type =
        if i % 2 = 0 then TradeType.buy else TradeType.sell) := by
  have hinv := finalEngineState_inv bars initial_capital commission_rate
  rw [run_backtest_trades bars initial_capital commission_rate]
  refine ⟨?_, ?_, ?_⟩
  · intro pre suf heq
    have hmap : (finalEngineState bars initial_capital commission_rate).trades.map Trade.type =
        pre.map Trade.type ++ suf.map Trade.type := by
      rw [heq, List.map_append]
    have hsh := hinv.shape
    rw [hmap, endFlat_append] at hsh
    rcases hpre : endFlat true (pre.map Trade.type) with _ | m
    · rw [hpre] at hsh; simp at hsh
    · have hcount := endFlat_count _ _ _ hpre
      rw [countTrades_eq_countT, countTrades_eq_countT]
      cases m <;> simp at hcount <;> omega
  · rw [countTrades_eq_countT, countTrades_eq_countT]
    have hcount := endFlat_count _ _ _ hinv.shape
    rcases hinv.pos with hz | hz
    · rw [decide_eq_true hz] at hcount
      simp at hcount
      constructor
      · intro _; rw [hz]; exact lt_irrefl 0
      · intro _; omega
    · rw [decide_eq_false (ne_of_gt hz)] at hcount
      simp at hcount
      constructor
      · intro hh; omega
      · intro hh; exact absurd hz hh
  · intro i h
    have hi : i < ((finalEngineState bars initial_capital commission_rate).trades.map
        Trade.type).length := by simpa using h
    have hg := endFlat_get _ _ _ hinv.shape i hi
    rw [List.getElem_map] at hg
    simpa using hg

theorem pctChangeGo_const (c : ℚ) : ∀ (vs : List ℚ) (prev : ℚ), prev = c →
    (∀ x ∈ vs, x = c) → pctChangeGo prev vs = List.replicate vs.length 0 := by
  intro vs
  induction vs with
  | nil => intros; rfl
  | cons x xs ih =>
    intro prev hp hall
    have hx : x = c := hall x (by simp)
    have hrec := ih x hx (fun y hy => hall y (by simp [hy]))
    by_cases hc : c = 0
    · rw [hx, hc] at hrec
      simp [pctChangeGo, List.replicate, hp, hx, hc, hrec]
    · have : ¬ (prev = 0 ∧ x = 0) := by
        rintro ⟨h0, -⟩
        exact hc (hp ▸ h0)
      simp [pctChangeGo, List.replicate, hrec, this]
      rw [hp, hx, div_self hc]
      ring
  
theorem pctChangeFillna_const (v : List ℚ) (c : ℚ) (hall : ∀ x ∈ v, x = c) :
    pctChangeFillna v = List.replicate v.length 0 := by
  cases v with
  | nil => rfl
  | cons a vs =>
    simp only [pctChangeFillna, List.length_cons, List.replicate]
    rw [pctChangeGo_const c vs a (hall a (by simp)) (fun y hy => hall y (by simp [hy]))]

theorem sampleVar_replicate_zero (n : Nat) : sampleVar (List.replicate n 0) = 0 := by
  have hm : listMean (List.replicate n (0:ℚ)) = 0 := by
    simp [listMean]
  simp [sampleVar, hm]

/-- C7 counterexample: a single-row portfolio history (total_value
series [1000]) has a one-point daily-returns series; pandas' sample
standard deviation of one point is NaN, the `std == 0` guard does not
fire, and the Sharpe computation returns NaN (modelled `none`) — not
the 0 the claim requires for a series with fewer than 2 points. -/
theorem C7_counterexample :
    calculate_sharpe (pctChangeFillna [(1000 : ℚ)]) 0 365 = none ∧
    calculate_sharpe (pctChangeFillna [(1000 : ℚ)]) 0 365 ≠ some 0 := by
  constructor <;> simp [pctChangeFillna, pctChangeGo, calculate_sharpe]

/-- C7 (amended): the Sharpe calculation returns 0 for an empty
daily-returns series and for any series of at least 2 points with zero
sample variance, but returns NaN (`none`) for a one-point series; for
a constant total_value series of length at least 2 both Sharpe and
Sortino return 0. -/
theorem C7_theorem (risk_free_rate annualization_factor : ℚ) :
    (calculate_sharpe [] risk_free_rate annualization_factor = some 0) ∧
    (∀ x : ℚ, calculate_sharpe [x] risk_free_rate annualization_factor = none) ∧
    (∀ r : List ℚ, 2 ≤ r.length → sampleVar r = 0 →
      calculate_sharpe r risk_free_rate annualization_factor = some 0) ∧
    (∀ (v : List ℚ) (c : ℚ), (∀ x ∈ v, x = c) → 2 ≤ v.length →
      calculate_sharpe (pctChangeFillna v) risk_free_rate annualization_factor = some 0 ∧
      calculate_sortino (pctChangeFillna v) risk_free_rate annualization_factor = some 0) := by
  refine ⟨by simp [calculate_sharpe], fun x => by simp [calculate_sharpe], ?_, ?_⟩
  · intro r hlen hvar
    have hne : r ≠ [] := by
      intro h
      rw [h] at hlen
      simp at hlen
    have h2 : ¬ r.length < 2 := by omega
    simp [calculate_sharpe, hne, h2, hvar]
  · intro v c hall hlen
    have hpc := pctChangeFillna_const v c hall
    rw [hpc]
    have hne : List.replicate v.length (0:ℚ) ≠ [] := by
      intro h
      have hv := congrArg List.length h
      simp only [List.length_replicate, List.length_nil] at hv
      omega
    constructor
    · have h2 : ¬ (List.replicate v.length (0:ℚ)).length < 2 := by
        simp
        omega
      simp [calculate_sharpe, hne, h2, sampleVar_replicate_zero]
      omega
    · have hfil : (List.replicate v.length (0:ℚ)).filter (fun x => decide (x < 0)) = [] := by
        apply List.filter_eq_nil_iff.mpr
        intro a ha
        have := List.eq_of_mem_replicate ha
        simp [this]
      simp [calculate_sortino, hne, hfil]

/-- C7 witness: the constant total_value series [5, 5, 5] (three rows)
gives daily returns [0, 0, 0], and both Sharpe and Sortino evaluate to
0, with the engine's default risk-free rate 0 and annualization factor
365. -/
theorem C7_witness :
    calculate_sharpe (pctChangeFillna [(5:ℚ), 5, 5]) 0 365 = some 0 ∧
    calculate_sortino (pctChangeFillna [(5:ℚ), 5, 5]) 0 365 = some 0 :=
  (C7_theorem 0 365).2.2.2 [5, 5, 5] 5 (by simp) (by simp)

theorem grossProfit_eq (ts : List Trade) :
    ((ts.filter (fun t => decide (0 < t.pnl))).map Trade.pnl).sum = grossProfitOf ts := by
  induction ts with
  | nil => rfl
  | cons t l ih =>
    by_cases h : 0 < t.pnl
    · simp [List.filter_cons, h, grossProfitOf, max_eq_left h.le] at ih ⊢
      exact ih
    · simp [List.filter_cons, h, grossProfitOf, max_eq_right (le_of_not_lt h)] at ih ⊢
      exact ih

theorem grossLoss_eq (ts : List Trade) :
    ((ts.filter (fun t => decide (t.pnl < 0))).map (fun t => |t.pnl|)).sum =
      grossLossOf ts := by
  induction ts with
  | nil => rfl
  | cons t l ih =>
    by_cases h : t.pnl < 0
    · have habs : |t.pnl| = -t.pnl := abs_of_neg h
      have hmax : max (-t.pnl) 0 = -t.pnl := max_eq_left (by linarith)
      simp [List.filter_cons, h, grossLossOf, habs, hmax] at ih ⊢
      exact ih
    · have hmax : max (-t.pnl) 0 = 0 := max_eq_right (by linarith [le_of_not_lt h])
      simp [List.filter_cons, h, grossLossOf, hmax] at ih ⊢
      exact ih

/-- C8 counterexample: a trade log with one winning Sell (pnl 200) and
no losing trade has gross loss 0 and positive gross profit; the claim
requires an "undefined/infinite" sentinel there, but the code returns
the ordinary finite value 1.0. -/
theorem C8_counterexample :
    calculate_profit_factor [⟨2, TradeType.sell, 120, 10, 0, 200⟩] = 1 ∧
    profitFactorSpec [⟨2, TradeType.sell, 120, 10, 0, 200⟩] = none := by
  constructor <;> norm_num [calculate_profit_factor, profitFactorSpec]

/-- C8 (amended): for every trade log the profit factor equals the sum
of positive trade PnL divided by the absolute sum of negative trade
PnL; when gross loss is 0 it is 0 when gross profit is also 0 (in
particular for an empty log), and 1.0 — not an infinite sentinel —
when gross profit is positive. -/
theorem C8_theorem (ts : List Trade) :
    calculate_profit_factor ts =
      (if grossLossOf ts = 0 then (if 0 < grossProfitOf ts then 1 else 0)
        else grossProfitOf ts / grossLossOf ts) := by
  cases ts with
  | nil => simp [calculate_profit_factor, grossProfitOf, grossLossOf]
  | cons t l =>
    unfold calculate_profit_factor
    rw [if_neg (by simp)]
    rw [grossProfit_eq, grossLoss_eq]

theorem stepBar_trade_mem (commission_rate : ℚ) (s : EngineState) (bar : SignalRow) :
    ∀ u ∈ (stepBar commission_rate s bar).1.trades,
      u ∈ s.trades ∨ u.timestamp = bar.timestamp := by
  intro u hu
  unfold stepBar at hu
  dsimp only at hu
  split_ifs at hu
  · rcases List.mem_append.mp hu with h | h
    · exact Or.inl h
    · simp at h
      rw [h]
      exact Or.inr rfl
  · exact Or.inl hu
  · rcases List.mem_append.mp hu with h | h
    · exact Or.inl h
    · simp at h
      rw [h]
      exact Or.inr rfl
  · exact Or.inl hu

theorem runBars_trade_mem (commission_rate : ℚ) : ∀ (bs : List SignalRow) (s : EngineState),
    ∀ t ∈ (runBars commission_rate s bs).1.trades,
      t ∈ s.trades ∨ t.timestamp ∈ bs.map SignalRow.timestamp := by
  intro bs
  induction bs with
  | nil => intro s t ht; exact Or.inl ht
  | cons bar rest ih =>
    intro s t ht
    rcases ih _ t ht with hmem | hmem
    · rcases stepBar_trade_mem commission_rate s bar t hmem with h | h
      · exact Or.inl h
      · exact Or.inr (by simp [h])
    · exact Or.inr (by simp [hmem])

/-- C9: the engine never evaluates the first bar's signal — the run is
unchanged if the first bar's signal is replaced by anything else, the
first PortfolioHistoryRow is always (cash = initial capital, units 0,
holdings 0, total = initial capital), and (when the first bar's
timestamp does not recur later) no recorded trade carries the first
bar's timestamp. -/
theorem C9_theorem (b : SignalRow) (rest : List SignalRow)
    (initial_capital commission_rate : ℚ) :
    ((run_backtest (b :: rest) initial_capital commission_rate).portfolio_history.head? =
      some ⟨b.timestamp, initial_capital, 0, 0, initial_capital⟩) ∧
    (∀ sig : ℤ,
      run_backtest ({b with final_signal := sig} :: rest) initial_capital commission_rate =
        run_backtest (b :: rest) initial_capital commission_rate) ∧
    (b.timestamp ∉ rest.map SignalRow.timestamp →
      ∀ t ∈ (run_backtest (b :: rest) initial_capital commission_rate).trades,
        t.timestamp ≠ b.timestamp) := by
  refine ⟨rfl, fun sig => rfl, ?_⟩
  intro hnot t ht
  have hmem : t ∈ (runBars commission_rate ⟨initial_capital, 0, []⟩ rest).1.trades := ht
  rcases runBars_trade_mem commission_rate rest ⟨initial_capital, 0, []⟩ t hmem with h | h
  · simp at h
  · intro he
    rw [he] at h
    exact hnot h

/-- C9 witness: with first bar (timestamp 0, Hold) and a Buy executed
at the second bar (timestamp 1), the first history row is the initial
state and the recorded trade's timestamp is not the first bar's. -/
theorem C9_witness :
    ((run_backtest [⟨0, 100, 0⟩, ⟨1, 100, 1⟩] 1000 0).portfolio_history.head? =
      some ⟨0, 1000, 0, 0, 1000⟩) ∧
    (⟨1, TradeType.buy, 100, 10, 0, 0⟩ : Trade).timestamp ≠
      (⟨0, 100, 0⟩ : SignalRow).timestamp := by
  constructor
  · exact (C9_theorem ⟨0, 100, 0⟩ [⟨1, 100, 1⟩] 1000 0).1
  · exact (C9_theorem ⟨0, 100, 0⟩ [⟨1, 100, 1⟩] 1000 0).2.2 (by simp)
      ⟨1, TradeType.buy, 100, 10, 0, 0⟩
      (by norm_num [run_backtest, runBars, stepBar, min_units_threshold])

/-- C5 witness: a concrete round trip — Buy at 100 then Sell at 120 on
capital 1000 with commission 0 — satisfies the PnL identity: the Buy
carries pnl 0, and the Sell's pnl equals its net proceeds minus the
Buy's cost, referenced through the decomposition of the trade log. -/
theorem C5_witness :
    (⟨1, TradeType.buy, 100, 10, 0, 0⟩ : Trade).pnl = 0 ∧
    (∃ p1 b p2, [(⟨1, TradeType.buy, 100, 10, 0, 0⟩ : Trade)] = p1 ++ b :: p2 ∧
      b.type = TradeType.buy ∧ (∀ x ∈ p2, x.type ≠ TradeType.buy) ∧
      (⟨2, TradeType.sell, 120, 10, 0, 200⟩ : Trade).pnl =
        ((⟨2, TradeType.sell, 120, 10, 0, 200⟩ : Trade).units *
            (⟨2, TradeType.sell, 120, 10, 0, 200⟩ : Trade).price -
          (⟨2, TradeType.sell, 120, 10, 0, 200⟩ : Trade).commission) -
        (b.units * b.price + b.commission)) := by
  have hts : (run_backtest [⟨0, 100, 0⟩, ⟨1, 100, 1⟩, ⟨2, 120, -1⟩] 1000 0).trades =
      [⟨1, TradeType.buy, 100, 10, 0, 0⟩, ⟨2, TradeType.sell, 120, 10, 0, 200⟩] := by
    norm_num [run_backtest, runBars, stepBar, min_units_threshold, lastBuy]
  constructor
  · exact (C5_theorem [⟨0, 100, 0⟩, ⟨1, 100, 1⟩, ⟨2, 120, -1⟩] 1000 0).1
      ⟨1, TradeType.buy, 100, 10, 0, 0⟩ (by rw [hts]; simp) rfl
  · exact (C5_theorem [⟨0, 100, 0⟩, ⟨1, 100, 1⟩, ⟨2, 120, -1⟩] 1000 0).2
      [⟨1, TradeType.buy, 100, 10, 0, 0⟩] ⟨2, TradeType.sell, 120, 10, 0, 200⟩ []
      (by rw [hts]; rfl) rfl

/-- C6 witness: on the same round trip, the initial segment holding
only the Buy has no more Sells than Buys, and the full log has equal
counts since the run ends flat. -/
theorem C6_witness :
    countTrades TradeType.sell [(⟨1, TradeType.buy, 100, 10, 0, 0⟩ : Trade)] ≤
      countTrades TradeType.buy [(⟨1, TradeType.buy, 100, 10, 0, 0⟩ : Trade)] ∧
    countTrades TradeType.sell
        (run_backtest [⟨0, 100, 0⟩, ⟨1, 100, 1⟩, ⟨2, 120, -1⟩] 1000 0).trades =
      countTrades TradeType.buy
        (run_backtest [⟨0, 100, 0⟩, ⟨1, 100, 1⟩, ⟨2, 120, -1⟩] 1000 0).trades ∧
    ((run_backtest [⟨0, 100, 0⟩, ⟨1, 100, 1⟩, ⟨2, 120, -1⟩] 1000 0).trades.getD 0
        ⟨0, TradeType.sell, 0, 0, 0, 0⟩).type = TradeType.buy := by
  refine ⟨?_, ?_, ?_⟩
  · exact (C6_theorem [⟨0, 100, 0⟩, ⟨1, 100, 1⟩, ⟨2, 120, -1⟩] 1000 0).1
      [⟨1, TradeType.buy, 100, 10, 0, 0⟩] [⟨2, TradeType.sell, 120, 10, 0, 200⟩]
      (by norm_num [run_backtest, runBars, stepBar, min_units_threshold, lastBuy])
  · exact (C6_theorem [⟨0, 100, 0⟩, ⟨1, 100, 1⟩, ⟨2, 120, -1⟩] 1000 0).2.1.mpr
      (by norm_num [finalEngineState, runBars, stepBar, min_units_threshold, lastBuy])
  · have hlt : 0 < (run_backtest [⟨0, 100, 0⟩, ⟨1, 100, 1⟩, ⟨2, 120, -1⟩] 1000 0).trades.length := by
      have hts : (run_backtest [⟨0, 100, 0⟩, ⟨1, 100, 1⟩, ⟨2, 120, -1⟩] 1000 0).trades =
          [⟨1, TradeType.buy, 100, 10, 0, 0⟩, ⟨2, TradeType.sell, 120, 10, 0, 200⟩] := by
        norm_num [run_backtest, runBars, stepBar, min_units_threshold, lastBuy]
      rw [hts]
      norm_num
    have h0 := (C6_theorem [⟨0, 100, 0⟩, ⟨1, 100, 1⟩, ⟨2, 120, -1⟩] 1000 0).2.2 0 hlt
    rw [List.getD_eq_getElem _ _ hlt]
    simpa using h0
